import Mathlib

/-!
# Shallow embedding of the pylLoopLauncher core (src/src/LoopLauncher.cpp)

This file models the loop-mixer core: `LoopLauncher::Track` (clip map, active
and pending clip, `GetAudio` mixing/crossfade) and `LoopLauncher` itself
(track map, shared mix buffer, pending-update channel, `Initialize`,
`UpdatePendingClips`, `postPendingTracks`, `onGetData`).

Modelling conventions:
* `std::map<std::string, T>` is modelled as a `List (String × T)` kept sorted
  by key; `mapEmplace` models `emplace` (no overwrite), `mapAssign` models
  `operator[] =` (overwrite), `mapFind` models `find`.
* Sample values are `Int` (the C++ `sf::Int16`); the mix buffer is a total
  function `Int → Int` so that the exact set of indices a call writes —
  including possible negative, out-of-range indices — is observable.
  Two's-complement wraparound of `sf::Int16` accumulation is not modelled:
  the model coincides with the C++ code on all executions where no signed
  overflow (undefined behaviour) occurs.
* Quantities that are C++ `int` but are non-negative by construction
  (sample counts, positions, the fade length) are modelled as `Nat`;
  quantities that can genuinely go negative (`lastSample`, buffer indices)
  are `Int`.
* Float arithmetic (`vol_1 = 0.5f`, the fade weight `a`, `ceilf`) is modelled
  exactly over the rationals: `x * 0.5f` followed by the `sf::Int16`
  conversion is truncation toward zero of `x / 2`, and
  `(sf::Int16)ceilf(a * val + (1 - a) * next)` with `a = 1 - j / F` is the
  exact ceiling of `((F - j) * val + j * next) / F`.
* File loading (`sf::SoundBuffer::loadFromFile`) is external; operations that
  load clips take the decode result (`Option Clip`) as a parameter.
-/

/-- `sf::SoundBuffer`: an immutable decoded audio clip. -/
structure Clip where
  channelCount : Nat
  sampleRate : Nat
  sampleCount : Nat
  samples : Nat → Int

/-- Lexicographic order on character lists (by code point), the
`std::less<std::string>` key order of the C++ maps. -/
def charListLt : List Char → List Char → Bool
  | [], [] => false
  | [], _ :: _ => true
  | _ :: _, [] => false
  | c :: cs, d :: ds =>
    if c.toNat < d.toNat then true
    else if d.toNat < c.toNat then false
    else charListLt cs ds

/-- `std::less<std::string>`. -/
def strLt (a b : String) : Bool := charListLt a.data b.data

/-- `std::map::find`, on an association list sorted by key. -/
def mapFind {α : Type} (k : String) : List (String × α) → Option α
  | [] => none
  | (k', v) :: rest => if k = k' then some v else mapFind k rest

/-- `std::map::emplace`: insert keeping sort order, no overwrite of an
existing key. -/
def mapEmplace {α : Type} (k : String) (v : α) : List (String × α) → List (String × α)
  | [] => [(k, v)]
  | (k', v') :: rest =>
    if strLt k k' then (k, v) :: (k', v') :: rest
    else if k = k' then (k', v') :: rest
    else (k', v') :: mapEmplace k v rest

/-- `std::map::operator[] =`: insert keeping sort order, overwriting an
existing key. -/
def mapAssign {α : Type} (k : String) (v : α) : List (String × α) → List (String × α)
  | [] => [(k, v)]
  | (k', v') :: rest =>
    if strLt k k' then (k, v) :: (k', v') :: rest
    else if k = k' then (k', v) :: rest
    else (k', v') :: mapAssign k v rest

/-- `LoopLauncher::Track`: fade length, canonical sample count, clip map and
the two non-owning clip references (`m_pPendingTrack` is the *active* clip;
`m_pPendingClip` is the pending one). -/
structure Track where
  nFadeSamples : Nat
  nSampleCount : Nat
  mapClips : List (String × Clip)
  pendingTrack : Option Clip
  pendingClip : Option Clip

/-- The `Track` default constructor. -/
def Track.init : Track :=
  { nFadeSamples := 0, nSampleCount := 0, mapClips := [], pendingTrack := none,
    pendingClip := none }

/-- `Track::GetChannelCount`: 1 when the clip map is empty, else the first
clip's channel count. -/
def Track.GetChannelCount (t : Track) : Nat :=
  match t.mapClips with
  | [] => 1
  | (_, c) :: _ => c.channelCount

/-- `Track::GetSampleRate`: 1 when the clip map is empty, else the first
clip's sample rate. -/
def Track.GetSampleRate (t : Track) : Nat :=
  match t.mapClips with
  | [] => 1
  | (_, c) :: _ => c.sampleRate

/-- `Track::GetSampleCount`: 1 when the clip map is empty, else the first
clip's sample count. -/
def Track.GetSampleCount (t : Track) : Nat :=
  match t.mapClips with
  | [] => 1
  | (_, c) :: _ => c.sampleCount

/-- `Track::HasClip`. -/
def Track.HasClip (t : Track) (clipName : String) : Bool :=
  (mapFind clipName t.mapClips).isSome

/-- `Track::AddClip`.  `loadResult` is the outcome of the external
`sf::SoundBuffer::loadFromFile`.  The fade length is 5 ms worth of samples
(`(int)(5.f * sampleRate / 1000.f)`, modelled as exact division). -/
def Track.AddClip (t : Track) (fileName : String) (loadResult : Option Clip) :
    Bool × Track :=
  match loadResult with
  | none => (false, t)
  | some sBuf =>
    let t1 := if t.nSampleCount = 0 then { t with nSampleCount := sBuf.sampleCount } else t
    let t2 := if t1.nFadeSamples = 0
              then { t1 with nFadeSamples := 5 * sBuf.sampleRate / 1000 } else t1
    (true, { t2 with mapClips := mapAssign fileName sBuf t2.mapClips })

/-- The `Track(std::list<std::string>)` constructor: `AddClip` every file.
Each file name is paired with its external decode result. -/
def Track.ofFiles (liFileNames : List (String × Option Clip)) : Track :=
  liFileNames.foldl (fun t p => (t.AddClip p.1 p.2).2) Track.init

/-- `Track::SetPendingTrack`: look the name up; on success record the clip as
pending, on failure clear the pending clip. -/
def Track.SetPendingTrack (t : Track) (trackName : String) : Bool × Track :=
  match mapFind trackName t.mapClips with
  | some c => (true, { t with pendingClip := some c })
  | none => (false, { t with pendingClip := none })

/-- Truncation-toward-zero division (the C++ float-to-`sf::Int16`
conversion applied to an exact half-integer or an exact rational). -/
def truncDiv (a b : Int) : Int :=
  if 0 ≤ a then a / b else -((-a) / b)

/-- One store of the unfaded mixing loop:
`pMixBuffer[i] += *pSoundBuf++ * vol_1` with `vol_1 = 0.5f`, i.e. the
truncated value of `m + x / 2`. -/
def mixScaleAdd (m x : Int) : Int := truncDiv (2 * m + x) 2

/-- Ceiling division `⌈p / F⌉` (for `F > 0`), the exact model of `ceilf`. -/
def cdiv (p : Int) (F : Nat) : Int := -((-p) / (F : Int))

/-- The crossfaded sample of fade step `j` (`1 ≤ j ≤ F`):
`ceilf(a * val + (1 - a) * next)` with `a = 1 - j / F`, exactly
`⌈((F - j) * val + j * next) / F⌉`. -/
def fadeVal (F j : Nat) (val next : Int) : Int :=
  cdiv (((F : Int) - (j : Int)) * val + (j : Int) * next) F

/-- The unfaded mixing loop of `Track::GetAudio`: add the scaled samples
`soundSamples[offset], …, soundSamples[offset + cnt - 1]` into buffer
slots `0, …, cnt - 1`. -/
def normalMix (b : Int → Int) (soundSamples : Nat → Int) (offset cnt : Nat) :
    Int → Int :=
  fun i => if 0 ≤ i ∧ i < (cnt : Int) then
      mixScaleAdd (b i) (soundSamples (offset + i.toNat))
    else b i

/-- The crossfade loop of `Track::GetAudio`: for `k = 0, …, count - 1`
(`j = k + 1`) add `fadeVal F j (truncDiv soundSamples[readStart + k] 2) next`
into buffer slot `writeStart + k`.  `writeStart` is the (possibly negative)
`lastSample` of the C++ code. -/
def fadeMix (b : Int → Int) (soundSamples : Nat → Int) (readStart : Nat)
    (writeStart : Int) (count F : Nat) (next : Int) : Int → Int :=
  fun i => if writeStart ≤ i ∧ i < writeStart + (count : Int) then
      let k := (i - writeStart).toNat
      b i + fadeVal F (k + 1) (truncDiv (soundSamples (readStart + k)) 2) next
    else b i

/-- The first-render bootstrap of `Track::GetAudio`: if the active clip is
null but the pending clip is not, promote pending to active. -/
def Track.bootstrap (t : Track) : Track :=
  match t.pendingTrack, t.pendingClip with
  | none, some _ => { t with pendingTrack := t.pendingClip }
  | _, _ => t

/-- `nextSample` of the crossfade: the first sample of the pending clip,
or 0 when no pending clip is set. -/
def Track.pendingFirstSample (t : Track) : Int :=
  match t.pendingClip with
  | some p => p.samples 0
  | none => 0

/-- `Track::GetAudio`.  Returns the success flag, the updated track and the
updated mix buffer (`none` models a null buffer pointer). -/
def Track.GetAudio (t : Track) (pMixBuffer : Option (Int → Int))
    (nSamplesDesired nCurSamplePos : Nat) : Bool × Track × Option (Int → Int) :=
  match pMixBuffer with
  | none => (false, t, none)
  | some b =>
    let t1 := t.bootstrap
    match t1.pendingTrack with
    | none => (false, t1, some b)
    | some soundBuf =>
      let sampleOffset := nCurSamplePos % soundBuf.sampleCount
      if soundBuf.sampleCount ≤ sampleOffset + nSamplesDesired then
        -- bLoop: the window crosses the clip's end
        let lastSample : Int := (nSamplesDesired : Int) - (t1.nFadeSamples : Int)
        let b2 := fadeMix (normalMix b soundBuf.samples sampleOffset lastSample.toNat)
          soundBuf.samples (sampleOffset + lastSample.toNat) lastSample
          (((nSamplesDesired : Int) - lastSample).toNat) t1.nFadeSamples
          t1.pendingFirstSample
        (true, { t1 with pendingTrack := t1.pendingClip }, some b2)
      else
        (true, t1, some (normalMix b soundBuf.samples sampleOffset nSamplesDesired))

/-- `LoopLauncher`: global position, global loop length, track map, shared
mix buffer, needs-audio flag and the pending-update channel. -/
structure LoopLauncher where
  nLastSamplePos : Nat
  nMaxSampleCount : Nat
  mapTracks : List (String × Track)
  vMixBuffer : List Int
  bNeedsAudio : Bool
  mapPendingTracks : List (String × String)

/-- The `LoopLauncher` default constructor. -/
def LoopLauncher.init : LoopLauncher :=
  { nLastSamplePos := 0, nMaxSampleCount := 0, mapTracks := [], vMixBuffer := [],
    bNeedsAudio := true, mapPendingTracks := [] }

/-- `std::vector::resize` with zero fill. -/
def listResize (l : List Int) (n : Nat) : List Int :=
  l.take n ++ List.replicate (n - l.length) 0

/-- `LoopLauncher::Initialize`.  Tracks are constructed from the input map
(each clip list paired with its external decode results) and emplaced; fails
iff the resulting track map is empty; otherwise folds the max into
`m_nMaxSampleCount`, computes the min starting from `INT_MAX` and resizes the
shared mix buffer to `min / 64` samples.  (The `sf::SoundStream::initialize`
call with the first track's channel count and rate is external.) -/
def LoopLauncher.Initialize (s : LoopLauncher)
    (mapTracksIn : List (String × List (String × Option Clip))) :
    Bool × LoopLauncher :=
  let allTracks := mapTracksIn.foldl
    (fun m (p : String × List (String × Option Clip)) =>
      mapEmplace p.1 (Track.ofFiles p.2) m) s.mapTracks
  let s1 := { s with mapTracks := allTracks }
  if s1.mapTracks.isEmpty then (false, s1)
  else
    let nMax := s1.mapTracks.foldl
      (fun acc (p : String × Track) => max acc p.2.GetSampleCount) s1.nMaxSampleCount
    let nMin := s1.mapTracks.foldl
      (fun acc (p : String × Track) => min acc p.2.GetSampleCount) 2147483647
    (true, { s1 with nMaxSampleCount := nMax,
                     vMixBuffer := listResize s1.vMixBuffer (nMin / 64) })

/-- `LoopLauncher::GetTrack`. -/
def LoopLauncher.GetTrack (s : LoopLauncher) (trackName : String) : Option Track :=
  mapFind trackName s.mapTracks

/-- `LoopLauncher::AddTrack`: always reports success. -/
def LoopLauncher.AddTrack (s : LoopLauncher) (trackName : String)
    (liFileNames : List (String × Option Clip)) : Bool × LoopLauncher :=
  (true, { s with mapTracks := mapEmplace trackName (Track.ofFiles liFileNames) s.mapTracks })

/-- The inner linear scan of `LoopLauncher::UpdatePendingClips`: the first
track (in map order) that `HasClip` the requested clip. -/
def findTrackWithClip (clip : String) : List (String × Track) → Option String
  | [] => none
  | (nm, tr) :: rest => if tr.HasClip clip then some nm else findTrackWithClip clip rest

/-- The body of the outer loop of `LoopLauncher::UpdatePendingClips` for one
requested clip: stage `m_mapPendingTracks[trackName] = clip` and clear the
needs-audio flag when some track has the clip. -/
def updStep (acc : LoopLauncher) (clip : String) : LoopLauncher :=
  match findTrackWithClip clip acc.mapTracks with
  | some nm =>
    { acc with mapPendingTracks := mapAssign nm clip acc.mapPendingTracks,
               bNeedsAudio := false }
  | none => acc

/-- `LoopLauncher::UpdatePendingClips`: for each requested clip found in some
track, stage `m_mapPendingTracks[trackName] = clip` and clear the needs-audio
flag; return `m_bNeedsAudio == false`. -/
def LoopLauncher.UpdatePendingClips (s : LoopLauncher)
    (liNewActiveClips : List String) : Bool × LoopLauncher :=
  let s1 := liNewActiveClips.foldl updStep s
  ((s1.bNeedsAudio == false), s1)

/-- `LoopLauncher::NeedsAudio`. -/
def LoopLauncher.NeedsAudio (s : LoopLauncher) : Bool := s.bNeedsAudio

/-- One step of the second loop of `postPendingTracks`: apply
`SetPendingTrack clipName` to the track called `nm`, if present. -/
def updateTrackNamed (nm clipName : String) (m : List (String × Track)) :
    List (String × Track) :=
  m.map (fun p => (p.1, if p.1 = nm then (p.2.SetPendingTrack clipName).2 else p.2))

/-- `LoopLauncher::postPendingTracks`: set every track's pending clip to the
one named `"silence"` (clearing it when absent), then apply every staged
`{track ↦ clip}` request, then clear the staged map and set needs-audio. -/
def LoopLauncher.postPendingTracks (s : LoopLauncher) : LoopLauncher :=
  let m1 := s.mapTracks.map (fun p => (p.1, (p.2.SetPendingTrack "silence").2))
  let m2 := s.mapPendingTracks.foldl (fun m q => updateTrackNamed q.1 q.2 m) m1
  { s with mapTracks := m2, mapPendingTracks := [], bNeedsAudio := true }

/-- `LoopLauncher::Play`: flush pending clips (the `sf::SoundStream::play`
call is external). -/
def LoopLauncher.Play (s : LoopLauncher) : LoopLauncher := s.postPendingTracks

/-- View a `std::vector<sf::Int16>` buffer as the `Int → Int` memory the
track mixing works on. -/
def listToFun (l : List Int) : Int → Int :=
  fun i => if 0 ≤ i ∧ i < (l.length : Int) then l.getD i.toNat 0 else 0

/-- Read the buffer memory back as a vector of length `n`. -/
def funToList (f : Int → Int) (n : Nat) : List Int :=
  (List.range n).map (fun i => f (i : Int))

/-- `LoopLauncher::onGetData`: fail on an empty mix buffer; otherwise zero
the buffer, post pending tracks when the window crosses the global loop
boundary, let every track add its audio, and advance (and wrap) the global
position. -/
def LoopLauncher.onGetData (s : LoopLauncher) : Bool × LoopLauncher :=
  if s.vMixBuffer.isEmpty then (false, s)
  else
    let size := s.vMixBuffer.length
    let s1 := { s with vMixBuffer := List.replicate size 0 }
    let s2 := if s1.nMaxSampleCount ≤ size + s1.nLastSamplePos
              then s1.postPendingTracks else s1
    let step := fun (acc : List (String × Track) × (Int → Int)) (p : String × Track) =>
      let r := p.2.GetAudio (some acc.2) size s2.nLastSamplePos
      (acc.1 ++ [(p.1, r.2.1)],
       match r.2.2 with
       | some f => f
       | none => acc.2)
    let res := s2.mapTracks.foldl step ([], listToFun s2.vMixBuffer)
    let s3 := { s2 with mapTracks := res.1, vMixBuffer := funToList res.2 size }
    let pos := s3.nLastSamplePos + size
    (true, { s3 with nLastSamplePos := if s3.nMaxSampleCount ≤ pos then 0 else pos })

/-- The crossfade weight of fade step `j` out of `F`:
`a = 1.f - float(j) / float(F)`, modelled exactly. -/
def fadeWeight (F j : Nat) : ℚ := 1 - (j : ℚ) / (F : ℚ)

/-! ### Concrete states used by counterexamples and witnesses -/

/-- A 4-sample clip whose samples are all 2. -/
def flatClip : Clip := { channelCount := 1, sampleRate := 1, sampleCount := 4, samples := fun _ => 2 }

/-- A track holding `flatClip` (fade length 2), actively playing it, with no
pending clip. -/
def flatTrack : Track :=
  { nFadeSamples := 2, nSampleCount := 4, mapClips := [("c", flatClip)],
    pendingTrack := some flatClip, pendingClip := none }

/-- A 1-sample clip whose sample is 2. -/
def shortClip : Clip := { channelCount := 1, sampleRate := 1, sampleCount := 1, samples := fun _ => 2 }

/-- A track whose fade length (2) exceeds its clip's length (1), actively
playing the clip. -/
def shortTrack : Track :=
  { nFadeSamples := 2, nSampleCount := 1, mapClips := [("c", shortClip)],
    pendingTrack := some shortClip, pendingClip := none }

/-- The zero-initialized mix buffer memory. -/
def zeroBuf : Int → Int := fun _ => 0

/-- The buffer memory produced by rendering `flatTrack`'s full clip length
from position 0. -/
def flatOut : Int → Int :=
  ((flatTrack.GetAudio (some zeroBuf) 4 0).2.2).getD zeroBuf

/-- The buffer memory produced by asking `shortTrack` for 1 sample at
position 0 (a boundary-crossing call with fade length 2 > 1). -/
def shortOut : Int → Int :=
  ((shortTrack.GetAudio (some zeroBuf) 1 0).2.2).getD zeroBuf

/-- A 44100-sample silent clip at 44100 Hz. -/
def clip44100 : Clip := { channelCount := 1, sampleRate := 44100, sampleCount := 44100, samples := fun _ => 0 }

/-- The two-track input of the spec's concrete scenario: "drums" with clips
"a","b" and "bass" with clip "x", all 44100 samples. -/
def demoInput : List (String × List (String × Option Clip)) :=
  [("bass", [("x", some clip44100)]),
   ("drums", [("a", some clip44100), ("b", some clip44100)])]

/-- An input whose only track loads no clips at all. -/
def emptyTrackInput : List (String × List (String × Option Clip)) :=
  [("empty", [])]

/-- A launcher holding one track (playing `flatClip`), used for the
`UpdatePendingClips` scenarios. -/
def oneTrackLauncher : LoopLauncher :=
  { nLastSamplePos := 0, nMaxSampleCount := 4, mapTracks := [("t", flatTrack)],
    vMixBuffer := [0], bNeedsAudio := true, mapPendingTracks := [] }

/-- A track that actually contains a clip named `"silence"` (and is actively
playing `flatClip`). -/
def silenceNamedTrack : Track :=
  { nFadeSamples := 2, nSampleCount := 4, mapClips := [("silence", flatClip)],
    pendingTrack := some flatClip, pendingClip := none }

/-- A launcher holding `silenceNamedTrack` with no staged request for it. -/
def silenceLauncher : LoopLauncher :=
  { nLastSamplePos := 0, nMaxSampleCount := 4, mapTracks := [("bass", silenceNamedTrack)],
    vMixBuffer := [0], bNeedsAudio := true, mapPendingTracks := [] }

/-! ### Association-list lemmas -/

theorem mapFind_mapAssign {α : Type} (k k' : String) (v : α) :
    ∀ m : List (String × α),
      mapFind k (mapAssign k' v m) = if k = k' then some v else mapFind k m
  | [] => by simp [mapAssign, mapFind]
  | (k1, v1) :: rest => by
    by_cases h1 : strLt k' k1 = true
    · simp only [mapAssign, if_pos h1, mapFind]
    · by_cases h2 : k' = k1
      · subst h2
        simp only [mapAssign, if_neg h1, if_pos rfl, mapFind]
        by_cases h3 : k = k' <;> simp [h3]
      · simp only [mapAssign, if_neg h1, if_neg h2, mapFind,
          mapFind_mapAssign k k' v rest]
        by_cases h3 : k = k1
        · subst h3
          simp [Ne.symm h2]
        · simp [h3]

theorem mapFind_none_iff {α : Type} (k : String) :
    ∀ m : List (String × α), mapFind k m = none ↔ ∀ p ∈ m, p.1 ≠ k
  | [] => by simp [mapFind]
  | (k1, v1) :: rest => by
    by_cases h : k = k1
    · subst h
      simp [mapFind]
    · simp [mapFind, h, mapFind_none_iff k rest, Ne.symm h]

theorem mapFind_mapKeyed {α β : Type} (k : String) (f : String → α → β) :
    ∀ m : List (String × α),
      mapFind k (m.map (fun p => (p.1, f p.1 p.2))) = (mapFind k m).map (f k)
  | [] => by simp [mapFind]
  | (k1, v1) :: rest => by
    by_cases h : k = k1
    · subst h
      simp [mapFind]
    · simp [mapFind, h, mapFind_mapKeyed k f rest]

theorem mapFind_updateTrackNamed_ne (k nm clipName : String)
    (h : k ≠ nm) (m : List (String × Track)) :
    mapFind k (updateTrackNamed nm clipName m) = mapFind k m := by
  unfold updateTrackNamed
  rw [mapFind_mapKeyed k (fun key tr => if key = nm then (tr.SetPendingTrack clipName).2 else tr) m]
  cases mapFind k m with
  | none => rfl
  | some tr => simp [h]

theorem mapFind_foldl_updateTrackNamed_ne (k : String)
    (pend : List (String × String)) (hk : ∀ q ∈ pend, q.1 ≠ k) :
    ∀ m : List (String × Track),
      mapFind k (pend.foldl (fun m q => updateTrackNamed q.1 q.2 m) m) = mapFind k m := by
  induction pend with
  | nil => intro m; rfl
  | cons q rest ih =>
    intro m
    have hq : q.1 ≠ k := hk q (List.mem_cons_self q rest)
    rw [List.foldl_cons,
      ih (fun q' hq' => hk q' (List.mem_cons_of_mem q hq')),
      mapFind_updateTrackNamed_ne k q.1 q.2 (Ne.symm hq)]

/-! ### Arithmetic lemmas: the exact model of the float crossfade -/

theorem cdiv_eq_ceil (p : Int) (F : Nat) : cdiv p F = ⌈(p : ℚ) / (F : ℚ)⌉ := by
  have h : ((p : ℚ) / (F : ℚ)) = -((((-p : Int) : ℤ) : ℚ) / ((F : ℕ) : ℚ)) := by
    push_cast
    ring
  rw [h, Int.ceil_neg, Rat.floor_intCast_div_natCast, cdiv]

theorem fadeVal_eq_ceil (F j : Nat) (hj : 1 ≤ j) (hjF : j ≤ F) (val nx : Int) :
    fadeVal F j val nx =
      ⌈fadeWeight F j * (val : ℚ) + (1 - fadeWeight F j) * (nx : ℚ)⌉ := by
  have hF : (0 : ℚ) < (F : ℚ) := by
    exact_mod_cast Nat.lt_of_lt_of_le hj hjF
  rw [fadeVal, cdiv_eq_ceil]
  congr 1
  rw [fadeWeight]
  field_simp

theorem fadeWeight_strictAnti (F j : Nat) (hj : 1 ≤ j) (hjF : j + 1 ≤ F) :
    fadeWeight F (j + 1) < fadeWeight F j := by
  have hF : (0 : ℚ) < (F : ℚ) := by
    exact_mod_cast Nat.lt_of_lt_of_le (Nat.lt_of_lt_of_le hj (Nat.le_succ j)) hjF
  have hlt : (j : ℚ) / (F : ℚ) < ((j : ℚ) + 1) / (F : ℚ) := by
    apply div_lt_div_of_pos_right _ hF
    linarith
  simp only [fadeWeight]
  push_cast
  linarith

theorem fadeWeight_last (F : Nat) (hF : 1 ≤ F) : fadeWeight F F = 0 := by
  have h : (F : ℚ) ≠ 0 := Nat.cast_ne_zero.mpr (Nat.one_le_iff_ne_zero.mp hF)
  simp only [fadeWeight]
  rw [div_self h]
  norm_num

theorem fadeWeight_first_lt_one (F : Nat) (hF : 1 ≤ F) : fadeWeight F 1 < 1 := by
  have h : (0 : ℚ) < (F : ℚ) := by exact_mod_cast hF
  have h1 : (0 : ℚ) < (1 : ℚ) / (F : ℚ) := by positivity
  simp only [fadeWeight]
  push_cast
  linarith

theorem truncDiv_two_range (x lo hi : Int) (hlo : lo ≤ x) (hhi : x ≤ hi)
    (hlo0 : lo ≤ 0) (hhi0 : 0 ≤ hi) :
    lo ≤ truncDiv x 2 ∧ truncDiv x 2 ≤ hi := by
  unfold truncDiv
  split <;> omega

/-! ### `Track::GetAudio` unfolding lemmas -/

theorem Track.bootstrap_of_active (t : Track) (c : Clip)
    (hact : t.pendingTrack = some c) : t.bootstrap = t := by
  unfold Track.bootstrap
  rw [hact]

theorem Track.GetAudio_inWindow (t : Track) (c : Clip) (b : Int → Int)
    (N pos : Nat) (hact : t.pendingTrack = some c)
    (hin : pos % c.sampleCount + N < c.sampleCount) :
    t.GetAudio (some b) N pos =
      (true, t, some (normalMix b c.samples (pos % c.sampleCount) N)) := by
  unfold Track.GetAudio
  rw [Track.bootstrap_of_active t c hact]
  simp only [hact]
  rw [if_neg (by omega)]

theorem Track.GetAudio_atWrap (t : Track) (c : Clip) (b : Int → Int)
    (N pos : Nat) (hact : t.pendingTrack = some c)
    (hge : c.sampleCount ≤ pos % c.sampleCount + N) :
    t.GetAudio (some b) N pos =
      (true, { t with pendingTrack := t.pendingClip },
        some (fadeMix
          (normalMix b c.samples (pos % c.sampleCount)
            ((N : Int) - (t.nFadeSamples : Int)).toNat)
          c.samples
          (pos % c.sampleCount + ((N : Int) - (t.nFadeSamples : Int)).toNat)
          ((N : Int) - (t.nFadeSamples : Int))
          (((N : Int) - ((N : Int) - (t.nFadeSamples : Int))).toNat)
          t.nFadeSamples
          t.pendingFirstSample)) := by
  unfold Track.GetAudio
  rw [Track.bootstrap_of_active t c hact]
  simp only [hact]
  rw [if_pos hge]

/-! ### Pointwise descriptions of the two mixing loops -/

theorem normalMix_apply_mem (b : Int → Int) (s : Nat → Int) (off cnt : Nat)
    (i : Nat) (h : i < cnt) :
    normalMix b s off cnt (i : Int) = mixScaleAdd (b (i : Int)) (s (off + i)) := by
  unfold normalMix
  rw [if_pos ⟨Int.natCast_nonneg i, by exact_mod_cast h⟩, Int.toNat_natCast]

theorem normalMix_apply_out (b : Int → Int) (s : Nat → Int) (off cnt : Nat)
    (i : Int) (h : ¬(0 ≤ i ∧ i < (cnt : Int))) :
    normalMix b s off cnt i = b i := by
  unfold normalMix
  rw [if_neg h]

theorem fadeMix_apply_mem (b : Int → Int) (s : Nat → Int) (rs : Nat)
    (ws : Int) (cnt F : Nat) (nx : Int) (k : Nat) (h : k < cnt) :
    fadeMix b s rs ws cnt F nx (ws + (k : Int)) =
      b (ws + (k : Int)) +
        fadeVal F (k + 1) (truncDiv (s (rs + k)) 2) nx := by
  unfold fadeMix
  rw [if_pos ⟨by omega, by omega⟩]
  simp only [add_sub_cancel_left, Int.toNat_natCast]

theorem fadeMix_apply_out (b : Int → Int) (s : Nat → Int) (rs : Nat)
    (ws : Int) (cnt F : Nat) (nx : Int) (i : Int)
    (h : ¬(ws ≤ i ∧ i < ws + (cnt : Int))) :
    fadeMix b s rs ws cnt F nx i = b i := by
  unfold fadeMix
  rw [if_neg h]

/-- Pointwise description of a wrap-crossing `GetAudio` call whose fade
length fits inside the window (`F ≤ N`): the first `N - F` buffer slots get
the scaled-additive mix, the last `F` slots get the crossfade values, nothing
else changes, and the pending clip is promoted to active. -/
theorem getAudio_wrap_pointwise (t : Track) (c : Clip) (b : Int → Int)
    (N pos : Nat) (hact : t.pendingTrack = some c)
    (hge : c.sampleCount ≤ pos % c.sampleCount + N)
    (hF : t.nFadeSamples ≤ N) :
    ∃ b', t.GetAudio (some b) N pos =
        (true, { t with pendingTrack := t.pendingClip }, some b') ∧
      (∀ i : Nat, i < N - t.nFadeSamples →
        b' (i : Int) = mixScaleAdd (b (i : Int))
          (c.samples (pos % c.sampleCount + i))) ∧
      (∀ j : Nat, 1 ≤ j → j ≤ t.nFadeSamples →
        b' ((N - t.nFadeSamples + (j - 1) : Nat) : Int) =
          b ((N - t.nFadeSamples + (j - 1) : Nat) : Int) +
            fadeVal t.nFadeSamples j
              (truncDiv (c.samples (pos % c.sampleCount + (N - t.nFadeSamples) + (j - 1))) 2)
              t.pendingFirstSample) ∧
      (∀ i : Int, i < 0 ∨ (N : Int) ≤ i → b' i = b i) := by
  have hcnt : ((N : Int) - (t.nFadeSamples : Int)).toNat = N - t.nFadeSamples := by
    omega
  refine ⟨_, Track.GetAudio_atWrap t c b N pos hact hge, ?_, ?_, ?_⟩
  · intro i hi
    simp only [fadeMix, normalMix]
    split_ifs with h1 h2
    · exfalso
      omega
    · exfalso
      omega
    · simp only [Int.toNat_natCast]
    · exfalso
      omega
  · intro j hj1 hjF
    simp only [fadeMix, normalMix]
    split_ifs with h1 h2
    · exfalso
      omega
    · have hk : (((N - t.nFadeSamples + (j - 1) : Nat) : Int) -
          ((N : Int) - (t.nFadeSamples : Int))).toNat = j - 1 := by
        omega
      rw [hk, hcnt]
      have hj : j - 1 + 1 = j := by omega
      rw [hj]
    · exfalso
      omega
    · exfalso
      omega
  · intro i hi
    simp only [fadeMix, normalMix]
    split_ifs with h1 h2
    · exfalso
      omega
    · exfalso
      omega
    · exfalso
      omega
    · rfl

/-! ### Claim theorems -/

/-- C1: a `Track::GetAudio` call with an active clip whose window straddles
the clip's end (`offset + N ≥ length`) and fade length `F ≤ N` produces
exactly `N - F` unfaded (0.5-scaled, additively mixed) samples followed by
`F` crossfaded samples; the fade weight takes the values `1 - j/F` for
`j = 1, …, F`, strictly decreasing from just under 1 to 0; each crossfaded
output blends `a * scaledActiveSample` with `(1-a) * pendingFirstSample`
(0 when no pending clip); nothing outside the window changes; and after the
block the pending clip is promoted to active with pending left as-is. -/
theorem crossfade_window_correct (t : Track) (c : Clip) (b : Int → Int)
    (N pos : Nat) (hact : t.pendingTrack = some c)
    (hge : c.sampleCount ≤ pos % c.sampleCount + N)
    (hF : t.nFadeSamples ≤ N) :
    ∃ b', t.GetAudio (some b) N pos =
        (true, { t with pendingTrack := t.pendingClip }, some b') ∧
      (∀ i : Nat, i < N - t.nFadeSamples →
        b' (i : Int) = mixScaleAdd (b (i : Int))
          (c.samples (pos % c.sampleCount + i))) ∧
      (∀ j : Nat, 1 ≤ j → j ≤ t.nFadeSamples →
        b' ((N - t.nFadeSamples + (j - 1) : Nat) : Int) =
          b ((N - t.nFadeSamples + (j - 1) : Nat) : Int) +
            ⌈fadeWeight t.nFadeSamples j *
                ((truncDiv (c.samples (pos % c.sampleCount + (N - t.nFadeSamples) + (j - 1))) 2 : Int) : ℚ) +
              (1 - fadeWeight t.nFadeSamples j) * ((t.pendingFirstSample : Int) : ℚ)⌉) ∧
      (∀ j : Nat, 1 ≤ j → j + 1 ≤ t.nFadeSamples →
        fadeWeight t.nFadeSamples (j + 1) < fadeWeight t.nFadeSamples j) ∧
      (1 ≤ t.nFadeSamples →
        fadeWeight t.nFadeSamples 1 < 1 ∧ fadeWeight t.nFadeSamples t.nFadeSamples = 0) ∧
      (∀ i : Int, i < 0 ∨ (N : Int) ≤ i → b' i = b i) := by
  obtain ⟨b', heq, hnorm, hfade, hout⟩ :=
    getAudio_wrap_pointwise t c b N pos hact hge hF
  refine ⟨b', heq, hnorm, ?_, ?_, ?_, hout⟩
  · intro j hj1 hjF
    rw [hfade j hj1 hjF,
      fadeVal_eq_ceil t.nFadeSamples j hj1 hjF _ t.pendingFirstSample]
  · intro j hj1 hjF
    exact fadeWeight_strictAnti t.nFadeSamples j hj1 hjF
  · intro h1
    exact ⟨fadeWeight_first_lt_one t.nFadeSamples h1, fadeWeight_last t.nFadeSamples h1⟩

/-- Witness for C1: `flatTrack` (fade 2, clip of length 4, samples all 2)
rendered for its full window at position 0. -/
theorem crossfade_window_correct_witness :
    flatTrack.pendingTrack = some flatClip ∧
    flatClip.sampleCount ≤ 0 % flatClip.sampleCount + 4 ∧
    flatTrack.nFadeSamples ≤ 4 ∧
    (∃ b', flatTrack.GetAudio (some zeroBuf) 4 0 =
        (true, { flatTrack with pendingTrack := flatTrack.pendingClip }, some b') ∧
      (∀ i : Nat, i < 4 - flatTrack.nFadeSamples →
        b' (i : Int) = mixScaleAdd (zeroBuf (i : Int))
          (flatClip.samples (0 % flatClip.sampleCount + i))) ∧
      (∀ j : Nat, 1 ≤ j → j ≤ flatTrack.nFadeSamples →
        b' ((4 - flatTrack.nFadeSamples + (j - 1) : Nat) : Int) =
          zeroBuf ((4 - flatTrack.nFadeSamples + (j - 1) : Nat) : Int) +
            ⌈fadeWeight flatTrack.nFadeSamples j *
                ((truncDiv (flatClip.samples (0 % flatClip.sampleCount + (4 - flatTrack.nFadeSamples) + (j - 1))) 2 : Int) : ℚ) +
              (1 - fadeWeight flatTrack.nFadeSamples j) * ((flatTrack.pendingFirstSample : Int) : ℚ)⌉) ∧
      (∀ j : Nat, 1 ≤ j → j + 1 ≤ flatTrack.nFadeSamples →
        fadeWeight flatTrack.nFadeSamples (j + 1) < fadeWeight flatTrack.nFadeSamples j) ∧
      (1 ≤ flatTrack.nFadeSamples →
        fadeWeight flatTrack.nFadeSamples 1 < 1 ∧
        fadeWeight flatTrack.nFadeSamples flatTrack.nFadeSamples = 0) ∧
      (∀ i : Int, i < 0 ∨ (4 : Int) ≤ i → b' i = zeroBuf i)) :=
  ⟨rfl, by decide, by decide,
    crossfade_window_correct flatTrack flatClip zeroBuf 4 0 rfl (by decide) (by decide)⟩

/-- C4: a `Track::GetAudio` call with a non-null buffer and an active clip
whose window stays inside the clip (`offset + N < length`) adds — does not
overwrite — exactly `N` consecutive 0.5-scaled samples starting at
`offset = pos mod length` into the buffer, touches nothing else, returns
success, and leaves the active and pending clip references unchanged. -/
theorem inwindow_additive_mix (t : Track) (c : Clip) (b : Int → Int)
    (N pos : Nat) (hact : t.pendingTrack = some c)
    (hin : pos % c.sampleCount + N < c.sampleCount) :
    ∃ b', t.GetAudio (some b) N pos = (true, t, some b') ∧
      (∀ i : Nat, i < N →
        b' (i : Int) = mixScaleAdd (b (i : Int))
          (c.samples (pos % c.sampleCount + i))) ∧
      (∀ i : Int, i < 0 ∨ (N : Int) ≤ i → b' i = b i) := by
  refine ⟨_, Track.GetAudio_inWindow t c b N pos hact hin, ?_, ?_⟩
  · intro i hi
    simp only [normalMix]
    split_ifs with h
    · simp only [Int.toNat_natCast]
    · exfalso
      omega
  · intro i hi
    simp only [normalMix]
    split_ifs with h
    · exfalso
      omega
    · rfl

/-- Witness for C4: `flatTrack` asked for 2 samples at position 0. -/
theorem inwindow_additive_mix_witness :
    flatTrack.pendingTrack = some flatClip ∧
    0 % flatClip.sampleCount + 2 < flatClip.sampleCount ∧
    (∃ b', flatTrack.GetAudio (some zeroBuf) 2 0 = (true, flatTrack, some b') ∧
      (∀ i : Nat, i < 2 →
        b' (i : Int) = mixScaleAdd (zeroBuf (i : Int))
          (flatClip.samples (0 % flatClip.sampleCount + i))) ∧
      (∀ i : Int, i < 0 ∨ (2 : Int) ≤ i → b' i = zeroBuf i)) :=
  ⟨rfl, by decide,
    inwindow_additive_mix flatTrack flatClip zeroBuf 2 0 rfl (by decide)⟩

/-- C3 counterexample: rendering `flatTrack`'s full clip length (4 samples,
all equal to 2, gain 0.5) from position 0 with no pending clip does *not*
reproduce the 0.5-scaled source: the call takes the crossfade path at the
boundary, so the last slot holds 0 while the scaled source sample is 1 (and
the active clip reference is cleared afterwards). -/
theorem full_render_not_exact :
    flatOut 3 = 0 ∧
    mixScaleAdd (zeroBuf 3) (flatClip.samples 3) = 1 ∧
    (flatTrack.GetAudio (some zeroBuf) 4 0).2.1.pendingTrack = none := by
  refine ⟨by decide, by decide, ?_⟩
  rfl

/-- C3 (amended): rendering the full clip length `L` from position 0 with an
active clip and no pending clip reproduces the 0.5-scaled source samples
exactly on the first `L - F` slots; the call *does* take the crossfade path
at the boundary, so the last `F` slots receive values crossfaded toward
silence, and afterwards the active clip reference is cleared (the `none`
pending clip is promoted). -/
theorem full_render_amended (t : Track) (c : Clip) (b : Int → Int)
    (hact : t.pendingTrack = some c) (hpend : t.pendingClip = none)
    (hF : t.nFadeSamples ≤ c.sampleCount) :
    ∃ b', t.GetAudio (some b) c.sampleCount 0 =
        (true, { t with pendingTrack := none }, some b') ∧
      (∀ i : Nat, i < c.sampleCount - t.nFadeSamples →
        b' (i : Int) = mixScaleAdd (b (i : Int)) (c.samples i)) ∧
      (∀ j : Nat, 1 ≤ j → j ≤ t.nFadeSamples →
        b' ((c.sampleCount - t.nFadeSamples + (j - 1) : Nat) : Int) =
          b ((c.sampleCount - t.nFadeSamples + (j - 1) : Nat) : Int) +
            fadeVal t.nFadeSamples j
              (truncDiv (c.samples (c.sampleCount - t.nFadeSamples + (j - 1))) 2) 0) := by
  obtain ⟨b', heq, hnorm, hfade, hout⟩ :=
    getAudio_wrap_pointwise t c b c.sampleCount 0 hact (by omega) hF
  have hzero : t.pendingFirstSample = 0 := by
    simp [Track.pendingFirstSample, hpend]
  refine ⟨b', ?_, ?_, ?_⟩
  · rw [show (none : Option Clip) = t.pendingClip from hpend.symm]
    exact heq
  · intro i hi
    have := hnorm i hi
    rwa [Nat.zero_mod, Nat.zero_add] at this
  · intro j hj1 hjF
    have := hfade j hj1 hjF
    rwa [Nat.zero_mod, Nat.zero_add, hzero] at this

/-- C2 (code bug): for `shortTrack` (fade length 2, clip length 1) a
boundary-crossing call asking for 1 sample computes an *unclamped* unfaded
segment length of `1 - 2 = -1` and adds a crossfaded sample at mix-buffer
index `-1`, outside the valid window `[0, 1)`: the buffer memory at `-1`
changes from 0 to 1. -/
theorem fade_exceeds_window_oob :
    shortOut (-1) = 1 ∧ zeroBuf (-1) = 0 ∧ ((-1 : Int) < 0 ∨ (1 : Int) ≤ -1) := by
  refine ⟨by decide, by decide, by decide⟩

theorem fadeWeight_nonneg (F j : Nat) (h : j ≤ F) : 0 ≤ fadeWeight F j := by
  rcases Nat.eq_zero_or_pos F with hF | hF
  · have hj : j = 0 := by omega
    subst hF
    subst hj
    simp [fadeWeight]
  · have hFq : (0 : ℚ) < (F : ℚ) := by exact_mod_cast hF
    have hle : (j : ℚ) / (F : ℚ) ≤ 1 := by
      rw [div_le_one hFq]
      exact_mod_cast h
    simp only [fadeWeight]
    linarith

theorem fadeWeight_le_one (F j : Nat) : fadeWeight F j ≤ 1 := by
  have h : (0 : ℚ) ≤ (j : ℚ) / (F : ℚ) := by positivity
  simp only [fadeWeight]
  linarith

/-- The ceiling of the crossfade blend of two 16-bit-range values stays in
the 16-bit range. -/
theorem ceil_blend_range (F j : Nat) (hjF : j ≤ F) (val nx : Int)
    (hv1 : -32768 ≤ val) (hv2 : val ≤ 32767)
    (hn1 : -32768 ≤ nx) (hn2 : nx ≤ 32767) :
    -32768 ≤ ⌈fadeWeight F j * (val : ℚ) + (1 - fadeWeight F j) * (nx : ℚ)⌉ ∧
    ⌈fadeWeight F j * (val : ℚ) + (1 - fadeWeight F j) * (nx : ℚ)⌉ ≤ 32767 := by
  have ha0 : 0 ≤ fadeWeight F j := fadeWeight_nonneg F j hjF
  have ha1 : fadeWeight F j ≤ 1 := fadeWeight_le_one F j
  have hv1q : (-32768 : ℚ) ≤ (val : ℚ) := by exact_mod_cast hv1
  have hv2q : (val : ℚ) ≤ 32767 := by exact_mod_cast hv2
  have hn1q : (-32768 : ℚ) ≤ (nx : ℚ) := by exact_mod_cast hn1
  have hn2q : (nx : ℚ) ≤ 32767 := by exact_mod_cast hn2
  have hub : fadeWeight F j * (val : ℚ) + (1 - fadeWeight F j) * (nx : ℚ) ≤ 32767 := by
    nlinarith
  have hlb : (-32768 : ℚ) ≤ fadeWeight F j * (val : ℚ) + (1 - fadeWeight F j) * (nx : ℚ) := by
    nlinarith
  constructor
  · have hle := Int.le_ceil (fadeWeight F j * (val : ℚ) + (1 - fadeWeight F j) * (nx : ℚ))
    have : (-32768 : ℚ) ≤
        (⌈fadeWeight F j * (val : ℚ) + (1 - fadeWeight F j) * (nx : ℚ)⌉ : ℚ) :=
      le_trans hlb hle
    exact_mod_cast this
  · rw [Int.ceil_le]
    push_cast
    exact hub

/-- C8: every value added during the crossfade segment of a
boundary-crossing `Track::GetAudio` call equals the ceiling of the weighted
sum `a * scaledActiveSample + (1-a) * pendingFirstSample` clamped to the
16-bit signed range `[-32768, 32767]` (the ceiling is always inside the
range, so the clamp never alters it). -/
theorem crossfade_rounding_spec (t : Track) (c : Clip) (b : Int → Int)
    (N pos : Nat) (hact : t.pendingTrack = some c)
    (hge : c.sampleCount ≤ pos % c.sampleCount + N)
    (hsamp : ∀ i : Nat, -32768 ≤ c.samples i ∧ c.samples i ≤ 32767)
    (hpend : -32768 ≤ t.pendingFirstSample ∧ t.pendingFirstSample ≤ 32767) :
    ∃ b', t.GetAudio (some b) N pos =
        (true, { t with pendingTrack := t.pendingClip }, some b') ∧
      ∀ k : Nat, k < t.nFadeSamples →
        b' ((N : Int) - (t.nFadeSamples : Int) + (k : Int)) =
          b ((N : Int) - (t.nFadeSamples : Int) + (k : Int)) +
            max (-32768) (min 32767
              ⌈fadeWeight t.nFadeSamples (k + 1) *
                  ((truncDiv (c.samples
                    (pos % c.sampleCount + ((N : Int) - (t.nFadeSamples : Int)).toNat + k)) 2 : Int) : ℚ) +
                (1 - fadeWeight t.nFadeSamples (k + 1)) *
                  ((t.pendingFirstSample : Int) : ℚ)⌉) := by
  refine ⟨_, Track.GetAudio_atWrap t c b N pos hact hge, ?_⟩
  intro k hk
  simp only [fadeMix, normalMix]
  split_ifs with h1 h2
  · exfalso
    omega
  · rw [add_sub_cancel_left, Int.toNat_natCast]
    have hval := truncDiv_two_range
      (c.samples (pos % c.sampleCount + ((N : Int) - (t.nFadeSamples : Int)).toNat + k))
      (-32768) 32767
      (hsamp _).1 (hsamp _).2 (by norm_num) (by norm_num)
    rw [fadeVal_eq_ceil t.nFadeSamples (k + 1) (by omega) (by omega)]
    have hr := ceil_blend_range t.nFadeSamples (k + 1) (by omega)
      (truncDiv (c.samples (pos % c.sampleCount + ((N : Int) - (t.nFadeSamples : Int)).toNat + k)) 2)
      t.pendingFirstSample hval.1 hval.2 hpend.1 hpend.2
    congr 1
    omega
  · exfalso
    omega
  · exfalso
    omega

/-- Witness for C8: `flatTrack` rendered across the boundary (window 4 at
position 0); all its samples are 2 and its pending first sample is 0. -/
theorem crossfade_rounding_spec_witness :
    flatTrack.pendingTrack = some flatClip ∧
    flatClip.sampleCount ≤ 0 % flatClip.sampleCount + 4 ∧
    (∃ b', flatTrack.GetAudio (some zeroBuf) 4 0 =
        (true, { flatTrack with pendingTrack := flatTrack.pendingClip }, some b') ∧
      ∀ k : Nat, k < flatTrack.nFadeSamples →
        b' ((4 : Int) - (flatTrack.nFadeSamples : Int) + (k : Int)) =
          zeroBuf ((4 : Int) - (flatTrack.nFadeSamples : Int) + (k : Int)) +
            max (-32768) (min 32767
              ⌈fadeWeight flatTrack.nFadeSamples (k + 1) *
                  ((truncDiv (flatClip.samples
                    (0 % flatClip.sampleCount + ((4 : Int) - (flatTrack.nFadeSamples : Int)).toNat + k)) 2 : Int) : ℚ) +
                (1 - fadeWeight flatTrack.nFadeSamples (k + 1)) *
                  ((flatTrack.pendingFirstSample : Int) : ℚ)⌉)) :=
  ⟨rfl, by decide,
    crossfade_rounding_spec flatTrack flatClip zeroBuf 4 0 rfl (by decide)
      (fun i => ⟨by norm_num [flatClip], by norm_num [flatClip]⟩)
      ⟨by decide, by decide⟩⟩

/-- C6: `Track::SetPendingTrack(name)` records the clip stored under `name`
as pending and returns true when the name exists in the clip map, and
otherwise clears the pending clip and returns false; in both cases the
active clip and the clip map are unchanged, and calling it twice with the
same name is the same as calling it once. -/
theorem setPendingTrack_spec (t : Track) (name : String) :
    (∀ c : Clip, mapFind name t.mapClips = some c →
      t.SetPendingTrack name = (true, { t with pendingClip := some c })) ∧
    (mapFind name t.mapClips = none →
      t.SetPendingTrack name = (false, { t with pendingClip := none })) ∧
    (t.SetPendingTrack name).2.pendingTrack = t.pendingTrack ∧
    (t.SetPendingTrack name).2.mapClips = t.mapClips ∧
    (t.SetPendingTrack name).2.SetPendingTrack name = t.SetPendingTrack name := by
  cases h : mapFind name t.mapClips with
  | some c =>
    refine ⟨?_, ?_, ?_, ?_, ?_⟩ <;>
      simp [Track.SetPendingTrack, h]
  | none =>
    refine ⟨?_, ?_, ?_, ?_, ?_⟩ <;>
      simp [Track.SetPendingTrack, h]

/-- Witness for C6: `flatTrack` with its clip name `"c"` (found case,
including the idempotence equation). -/
theorem setPendingTrack_spec_witness :
    flatTrack.SetPendingTrack "c" = (true, { flatTrack with pendingClip := some flatClip }) ∧
    (flatTrack.SetPendingTrack "c").2.pendingTrack = flatTrack.pendingTrack ∧
    (flatTrack.SetPendingTrack "c").2.SetPendingTrack "c" = flatTrack.SetPendingTrack "c" :=
  ⟨(setPendingTrack_spec flatTrack "c").1 flatClip rfl,
   (setPendingTrack_spec flatTrack "c").2.2.1,
   (setPendingTrack_spec flatTrack "c").2.2.2.2⟩

/-! ### `UpdatePendingClips` fold lemmas -/

theorem updStep_mapTracks (acc : LoopLauncher) (clip : String) :
    (updStep acc clip).mapTracks = acc.mapTracks := by
  unfold updStep
  cases findTrackWithClip clip acc.mapTracks <;> rfl

theorem foldl_updStep_mapTracks (li : List String) :
    ∀ acc : LoopLauncher, (li.foldl updStep acc).mapTracks = acc.mapTracks := by
  induction li with
  | nil => intro acc; rfl
  | cons c rest ih =>
    intro acc
    rw [List.foldl_cons, ih, updStep_mapTracks]

theorem findTrackWithClip_isSome_iff (clip : String) :
    ∀ m : List (String × Track),
      (findTrackWithClip clip m).isSome = true ↔ ∃ p ∈ m, p.2.HasClip clip = true
  | [] => by simp [findTrackWithClip]
  | (nm, tr) :: rest => by
    by_cases h : tr.HasClip clip = true
    · simp [findTrackWithClip, h]
    · simp [findTrackWithClip, h, findTrackWithClip_isSome_iff clip rest]

theorem foldl_updStep_flag (li : List String) :
    ∀ acc : LoopLauncher,
      ((li.foldl updStep acc).bNeedsAudio = false ↔
        (acc.bNeedsAudio = false ∨
          ∃ c ∈ li, (findTrackWithClip c acc.mapTracks).isSome = true)) := by
  induction li with
  | nil => intro acc; simp
  | cons c rest ih =>
    intro acc
    rw [List.foldl_cons, ih (updStep acc c)]
    unfold updStep
    cases h : findTrackWithClip c acc.mapTracks with
    | some nm => simp [h]
    | none => simp [h]

theorem foldl_updStep_pending_preserved (li : List String) :
    ∀ (acc : LoopLauncher) (nm : String),
      (mapFind nm acc.mapPendingTracks).isSome = true →
      (mapFind nm (li.foldl updStep acc).mapPendingTracks).isSome = true := by
  induction li with
  | nil => intro acc nm h; exact h
  | cons c rest ih =>
    intro acc nm h
    rw [List.foldl_cons]
    apply ih
    unfold updStep
    cases hf : findTrackWithClip c acc.mapTracks with
    | some nm' =>
      simp only
      rw [mapFind_mapAssign]
      split_ifs with he
      · rfl
      · exact h
    | none => exact h

theorem foldl_updStep_stages (li : List String) :
    ∀ (acc : LoopLauncher) (c nm : String), c ∈ li →
      findTrackWithClip c acc.mapTracks = some nm →
      (mapFind nm (li.foldl updStep acc).mapPendingTracks).isSome = true := by
  induction li with
  | nil =>
    intro acc c nm h
    exact absurd h (List.not_mem_nil c)
  | cons c' rest ih =>
    intro acc c nm hmem hf
    rw [List.foldl_cons]
    rcases List.mem_cons.mp hmem with he | hmem'
    · subst he
      apply foldl_updStep_pending_preserved
      unfold updStep
      rw [hf]
      simp only
      rw [mapFind_mapAssign]
      simp
    · apply ih (updStep acc c') c nm hmem'
      rw [updStep_mapTracks]
      exact hf

/-- C7 (amended): `UpdatePendingClips` stages `pendingUpdates[trackName] =
clipName` for each requested clip found in some track (the first such track
in map order keeps a staged entry), never touches the track map, and returns
true iff at least one staged update occurred during the call **or** the
needs-audio flag was already false on entry (a staged update from an earlier
call had not yet been consumed). -/
theorem updatePendingClips_amended (s : LoopLauncher) (clips : List String) :
    ((s.UpdatePendingClips clips).1 = true ↔
      (s.bNeedsAudio = false ∨ ∃ c ∈ clips, ∃ p ∈ s.mapTracks, p.2.HasClip c = true)) ∧
    (∀ c ∈ clips, ∀ nm, findTrackWithClip c s.mapTracks = some nm →
      (mapFind nm (s.UpdatePendingClips clips).2.mapPendingTracks).isSome = true) ∧
    (s.UpdatePendingClips clips).2.mapTracks = s.mapTracks := by
  unfold LoopLauncher.UpdatePendingClips
  refine ⟨?_, ?_, foldl_updStep_mapTracks clips s⟩
  · simp only [beq_iff_eq]
    rw [foldl_updStep_flag clips s]
    simp only [findTrackWithClip_isSome_iff]
  · intro c hc nm hf
    exact foldl_updStep_stages clips s c nm hc hf

/-- C7 counterexample: after `UpdatePendingClips(["c"])` has staged an
update (clearing the needs-audio flag), a second call requesting only the
unknown clip `"zzz"` stages nothing — the staged map is unchanged — yet
still returns true, contradicting "returns true iff at least one staged
update occurred during that call". -/
theorem updatePendingClips_stale_true :
    ((oneTrackLauncher.UpdatePendingClips ["c"]).2.UpdatePendingClips ["zzz"]).1 = true ∧
    ((oneTrackLauncher.UpdatePendingClips ["c"]).2.UpdatePendingClips ["zzz"]).2.mapPendingTracks =
      (oneTrackLauncher.UpdatePendingClips ["c"]).2.mapPendingTracks ∧
    (oneTrackLauncher.UpdatePendingClips ["c"]).2.mapPendingTracks = [("t", "c")] := by
  refine ⟨by decide, by decide, by decide⟩

/-! ### `Initialize` lemmas -/

theorem listResize_length (l : List Int) (n : Nat) : (listResize l n).length = n := by
  simp [listResize]
  omega

theorem foldl_min_le_init {α : Type} (f : α → Nat) :
    ∀ (l : List α) (init : Nat),
      l.foldl (fun acc x => min acc (f x)) init ≤ init
  | [], _ => le_refl _
  | x :: rest, init =>
    le_trans (foldl_min_le_init f rest (min init (f x))) (min_le_left _ _)

theorem foldl_min_le_mem {α : Type} (f : α → Nat) :
    ∀ (l : List α) (init : Nat) (a : α), a ∈ l →
      l.foldl (fun acc x => min acc (f x)) init ≤ f a
  | [], _, a, h => absurd h (List.not_mem_nil a)
  | x :: rest, init, a, h => by
    rw [List.foldl_cons]
    rcases List.mem_cons.mp h with he | hm
    · subst he
      exact le_trans (foldl_min_le_init f rest (min init (f a))) (min_le_right _ _)
    · exact foldl_min_le_mem f rest (min init (f x)) a hm

theorem foldl_min_attained {α : Type} (f : α → Nat) :
    ∀ (l : List α) (init : Nat),
      l.foldl (fun acc x => min acc (f x)) init = init ∨
        ∃ a ∈ l, l.foldl (fun acc x => min acc (f x)) init = f a
  | [], _ => Or.inl rfl
  | x :: rest, init => by
    rw [List.foldl_cons]
    rcases foldl_min_attained f rest (min init (f x)) with h | ⟨a, ha, he⟩
    · rcases Nat.le_total init (f x) with hle | hle
      · rw [h, min_eq_left hle]
        exact Or.inl rfl
      · rw [h, min_eq_right hle]
        exact Or.inr ⟨x, List.mem_cons_self x rest, rfl⟩
    · exact Or.inr ⟨a, List.mem_cons_of_mem x ha, he⟩

/-- The two outcomes of `LoopLauncher::Initialize`: failure with an empty
track map, or success with a nonempty track map and the mix buffer resized
to `min / 64` where min is the `INT_MAX`-seeded fold over the tracks'
sample counts. -/
theorem initialize_cases (s : LoopLauncher)
    (input : List (String × List (String × Option Clip))) :
    (∃ s', s.Initialize input = (false, s') ∧ s'.mapTracks = []) ∨
    (∃ s', s.Initialize input = (true, s') ∧ s'.mapTracks ≠ [] ∧
      s'.vMixBuffer.length =
        (s'.mapTracks.foldl
          (fun acc (p : String × Track) => min acc p.2.GetSampleCount) 2147483647) / 64) := by
  simp only [LoopLauncher.Initialize]
  split_ifs with h
  · refine Or.inl ⟨_, rfl, ?_⟩
    exact List.isEmpty_iff.mp h
  · refine Or.inr ⟨_, rfl, ?_, ?_⟩
    · intro hnil
      exact h (List.isEmpty_iff.mpr hnil)
    · exact listResize_length _ _

set_option maxRecDepth 8000 in
/-- C5: `LoopLauncher::Initialize` returns failure iff the resulting track
map is empty; on success the shared mix buffer is resized to
(minimum sample count across all tracks) / 64 (integer division) — in
particular, on the two-track 44100-sample scenario the mix buffer size is
`44100 / 64 = 689`. -/
theorem initialize_spec (s : LoopLauncher)
    (input : List (String × List (String × Option Clip))) :
    ((s.Initialize input).1 = false ↔ (s.Initialize input).2.mapTracks = []) ∧
    ((s.Initialize input).1 = true →
      (∀ p ∈ (s.Initialize input).2.mapTracks, p.2.GetSampleCount ≤ 2147483647) →
      ∃ m, (∀ p ∈ (s.Initialize input).2.mapTracks, m ≤ p.2.GetSampleCount) ∧
        (∃ p ∈ (s.Initialize input).2.mapTracks, p.2.GetSampleCount = m) ∧
        (s.Initialize input).2.vMixBuffer.length = m / 64) ∧
    (LoopLauncher.init.Initialize demoInput).1 = true ∧
    (LoopLauncher.init.Initialize demoInput).2.vMixBuffer.length = 689 := by
  refine ⟨?_, ?_, by decide, by decide⟩
  · rcases initialize_cases s input with ⟨s', he, hnil⟩ | ⟨s', he, hne, _⟩
    · rw [he]
      simp [hnil]
    · rw [he]
      simp [hne]
  · intro hret hbound
    rcases initialize_cases s input with ⟨s', he, _⟩ | ⟨s', he, hne, hlen⟩
    · rw [he] at hret
      exact absurd hret (by simp)
    · rw [he] at hret hbound ⊢
      refine ⟨s'.mapTracks.foldl
        (fun acc (p : String × Track) => min acc p.2.GetSampleCount) 2147483647,
        ?_, ?_, hlen⟩
      · intro p hp
        exact foldl_min_le_mem (fun p : String × Track => p.2.GetSampleCount)
          s'.mapTracks 2147483647 p hp
      · rcases foldl_min_attained (fun p : String × Track => p.2.GetSampleCount)
          s'.mapTracks 2147483647 with hinit | ⟨a, ha, hea⟩
        · obtain ⟨p0, hp0⟩ := List.exists_mem_of_ne_nil s'.mapTracks hne
          refine ⟨p0, hp0, ?_⟩
          have h1 : (s'.mapTracks.foldl
              (fun acc (p : String × Track) => min acc p.2.GetSampleCount) 2147483647) ≤
                p0.2.GetSampleCount :=
            foldl_min_le_mem (fun p : String × Track => p.2.GetSampleCount)
              s'.mapTracks 2147483647 p0 hp0
          have h2 := hbound p0 hp0
          have h3 : (s'.mapTracks.foldl
              (fun acc (p : String × Track) => min acc p.2.GetSampleCount) 2147483647) =
                2147483647 := hinit
          omega
        · exact ⟨a, ha, hea.symm⟩

/-- Witness for C5: the two-track 44100-sample scenario. -/
theorem initialize_spec_witness :
    ∃ m, (∀ p ∈ (LoopLauncher.init.Initialize demoInput).2.mapTracks,
        m ≤ p.2.GetSampleCount) ∧
      (∃ p ∈ (LoopLauncher.init.Initialize demoInput).2.mapTracks,
        p.2.GetSampleCount = m) ∧
      (LoopLauncher.init.Initialize demoInput).2.vMixBuffer.length = m / 64 :=
  (initialize_spec LoopLauncher.init demoInput).2.1 (by decide) (by decide)

theorem onGetData_of_empty (s : LoopLauncher) (h : s.vMixBuffer = []) :
    s.onGetData = (false, s) := by
  unfold LoopLauncher.onGetData
  rw [if_pos (by simp [h])]

theorem le_foldl_min {α : Type} (f : α → Nat) :
    ∀ (l : List α) (init m : Nat), m ≤ init → (∀ a ∈ l, m ≤ f a) →
      m ≤ l.foldl (fun acc x => min acc (f x)) init
  | [], _, _, hi, _ => hi
  | x :: rest, init, m, hi, h => by
    rw [List.foldl_cons]
    exact le_foldl_min f rest (min init (f x)) m
      (le_min hi (h x (List.mem_cons_self x rest)))
      (fun a ha => h a (List.mem_cons_of_mem x ha))

/-- C9: a `Track` holding no clips reports 1 (never 0, never a failure) for
its sample count, sample rate and channel count; consequently an
`Initialize` whose resulting track map contains such a track (with every
track reporting at least 1 sample) still succeeds, computes minimum sample
count 1, sizes the shared mix buffer to `1 / 64 = 0` samples, and every
subsequent `onGetData` render callback returns failure with the state
unchanged (so all later callbacks fail too). -/
theorem empty_track_degenerate (s : LoopLauncher)
    (input : List (String × List (String × Option Clip)))
    (hmem : ∃ p ∈ (s.Initialize input).2.mapTracks, p.2.mapClips = [])
    (hpos : ∀ p ∈ (s.Initialize input).2.mapTracks, 1 ≤ p.2.GetSampleCount) :
    (∀ t : Track, t.mapClips = [] →
      t.GetSampleCount = 1 ∧ t.GetSampleRate = 1 ∧ t.GetChannelCount = 1) ∧
    (s.Initialize input).1 = true ∧
    (s.Initialize input).2.mapTracks.foldl
      (fun acc (p : String × Track) => min acc p.2.GetSampleCount) 2147483647 = 1 ∧
    (s.Initialize input).2.vMixBuffer.length = 0 ∧
    (s.Initialize input).2.onGetData = (false, (s.Initialize input).2) := by
  have hgetters : ∀ t : Track, t.mapClips = [] →
      t.GetSampleCount = 1 ∧ t.GetSampleRate = 1 ∧ t.GetChannelCount = 1 := by
    intro t ht
    unfold Track.GetSampleCount Track.GetSampleRate Track.GetChannelCount
    rw [ht]
    exact ⟨rfl, rfl, rfl⟩
  obtain ⟨p1, hp1, hclips⟩ := hmem
  have hone : p1.2.GetSampleCount = 1 := (hgetters p1.2 hclips).1
  rcases initialize_cases s input with ⟨s', he, hnil⟩ | ⟨s', he, hne, hlen⟩
  · rw [he] at hp1
    rw [hnil] at hp1
    exact absurd hp1 (List.not_mem_nil p1)
  · rw [he] at hp1 hpos ⊢
    have hle : (s'.mapTracks.foldl
        (fun acc (p : String × Track) => min acc p.2.GetSampleCount) 2147483647) ≤
          p1.2.GetSampleCount :=
      foldl_min_le_mem (fun p : String × Track => p.2.GetSampleCount)
        s'.mapTracks 2147483647 p1 hp1
    have hge1 : 1 ≤ (s'.mapTracks.foldl
        (fun acc (p : String × Track) => min acc p.2.GetSampleCount) 2147483647) :=
      le_foldl_min (fun p : String × Track => p.2.GetSampleCount)
        s'.mapTracks 2147483647 1 (by norm_num) (fun a ha => hpos a ha)
    have hmin1 : (s'.mapTracks.foldl
        (fun acc (p : String × Track) => min acc p.2.GetSampleCount) 2147483647) = 1 := by
      omega
    have hlen0 : s'.vMixBuffer.length = 0 := by
      rw [hlen, hmin1]
    refine ⟨hgetters, rfl, hmin1, hlen0, ?_⟩
    exact onGetData_of_empty s' (List.length_eq_zero.mp hlen0)

/-- Witness for C9: a launcher initialized with one track whose clip list is
empty. -/
theorem empty_track_degenerate_witness :
    (∃ p ∈ (LoopLauncher.init.Initialize emptyTrackInput).2.mapTracks,
      p.2.mapClips = []) ∧
    (LoopLauncher.init.Initialize emptyTrackInput).1 = true ∧
    (LoopLauncher.init.Initialize emptyTrackInput).2.vMixBuffer.length = 0 ∧
    (LoopLauncher.init.Initialize emptyTrackInput).2.onGetData =
      (false, (LoopLauncher.init.Initialize emptyTrackInput).2) := by
  have hmt : (LoopLauncher.init.Initialize emptyTrackInput).2.mapTracks =
      [("empty", Track.init)] := rfl
  have hmem : ∃ p ∈ (LoopLauncher.init.Initialize emptyTrackInput).2.mapTracks,
      p.2.mapClips = [] :=
    ⟨("empty", Track.init), by rw [hmt]; exact List.mem_singleton.mpr rfl, rfl⟩
  have hpos : ∀ p ∈ (LoopLauncher.init.Initialize emptyTrackInput).2.mapTracks,
      1 ≤ p.2.GetSampleCount := by
    intro p hp
    rw [hmt] at hp
    rw [List.mem_singleton.mp hp]
    exact le_refl 1
  obtain ⟨_, h2, _, h4, h5⟩ :=
    empty_track_degenerate LoopLauncher.init emptyTrackInput hmem hpos
  exact ⟨hmem, h2, h4, h5⟩

theorem mapFind_silence_map (k : String) (m : List (String × Track)) :
    mapFind k (m.map (fun p => (p.1, (p.2.SetPendingTrack "silence").2))) =
      (mapFind k m).map (fun t => (t.SetPendingTrack "silence").2) :=
  mapFind_mapKeyed k (fun _ t => (t.SetPendingTrack "silence").2) m

/-- C10: `postPendingTracks` "silences" unrequested tracks only through
name-lookup failure.  For a track that actually *contains* a clip named
`"silence"` and has no staged request this cycle, the wrap does not silence
it: the clip named `"silence"` becomes its pending clip (the active clip is
untouched), and a subsequent boundary-crossing `GetAudio` call promotes that
clip to active. -/
theorem silence_name_collision (s : LoopLauncher) (nm : String) (tr : Track)
    (c : Clip)
    (htr : mapFind nm s.mapTracks = some tr)
    (hsil : mapFind "silence" tr.mapClips = some c)
    (hnoreq : mapFind nm s.mapPendingTracks = none) :
    ∃ tr', mapFind nm s.postPendingTracks.mapTracks = some tr' ∧
      tr'.pendingClip = some c ∧
      tr'.pendingTrack = tr.pendingTrack ∧
      (∀ (b : Int → Int) (N pos : Nat) (a : Clip),
        tr'.pendingTrack = some a →
        a.sampleCount ≤ pos % a.sampleCount + N →
        (tr'.GetAudio (some b) N pos).2.1.pendingTrack = some c) := by
  have hkeys : ∀ q ∈ s.mapPendingTracks, q.1 ≠ nm :=
    (mapFind_none_iff nm s.mapPendingTracks).mp hnoreq
  refine ⟨(tr.SetPendingTrack "silence").2, ?_, ?_, ?_, ?_⟩
  · unfold LoopLauncher.postPendingTracks
    simp only
    rw [mapFind_foldl_updateTrackNamed_ne nm s.mapPendingTracks hkeys,
      mapFind_silence_map, htr]
    rfl
  · unfold Track.SetPendingTrack
    rw [hsil]
  · unfold Track.SetPendingTrack
    rw [hsil]
  · intro b N pos a hact hge
    rw [Track.GetAudio_atWrap _ a b N pos hact hge]
    unfold Track.SetPendingTrack
    rw [hsil]

/-- Witness for C10: `silenceLauncher` holds the track `"bass"` whose clip
map contains a clip literally named `"silence"`, with no staged request. -/
theorem silence_name_collision_witness :
    ∃ tr', mapFind "bass" silenceLauncher.postPendingTracks.mapTracks = some tr' ∧
      tr'.pendingClip = some flatClip ∧
      tr'.pendingTrack = silenceNamedTrack.pendingTrack ∧
      (∀ (b : Int → Int) (N pos : Nat) (a : Clip),
        tr'.pendingTrack = some a →
        a.sampleCount ≤ pos % a.sampleCount + N →
        (tr'.GetAudio (some b) N pos).2.1.pendingTrack = some flatClip) :=
  silence_name_collision silenceLauncher "bass" silenceNamedTrack flatClip rfl rfl rfl

/-- Witness for the amended C3: `flatTrack` rendered for its full clip
length from position 0. -/
theorem full_render_amended_witness :
    ∃ b', flatTrack.GetAudio (some zeroBuf) flatClip.sampleCount 0 =
        (true, { flatTrack with pendingTrack := none }, some b') ∧
      (∀ i : Nat, i < flatClip.sampleCount - flatTrack.nFadeSamples →
        b' (i : Int) = mixScaleAdd (zeroBuf (i : Int)) (flatClip.samples i)) ∧
      (∀ j : Nat, 1 ≤ j → j ≤ flatTrack.nFadeSamples →
        b' ((flatClip.sampleCount - flatTrack.nFadeSamples + (j - 1) : Nat) : Int) =
          zeroBuf ((flatClip.sampleCount - flatTrack.nFadeSamples + (j - 1) : Nat) : Int) +
            fadeVal flatTrack.nFadeSamples j
              (truncDiv (flatClip.samples
                (flatClip.sampleCount - flatTrack.nFadeSamples + (j - 1))) 2) 0) :=
  full_render_amended flatTrack flatClip zeroBuf rfl rfl (by decide)

/-- Witness for the amended C7: a call that stages the clip `"c"` for track
`"t"` and returns true. -/
theorem updatePendingClips_amended_witness :
    (oneTrackLauncher.UpdatePendingClips ["c"]).1 = true ∧
    (mapFind "t" (oneTrackLauncher.UpdatePendingClips ["c"]).2.mapPendingTracks).isSome = true ∧
    (oneTrackLauncher.UpdatePendingClips ["c"]).2.mapTracks = oneTrackLauncher.mapTracks := by
  have h := updatePendingClips_amended oneTrackLauncher ["c"]
  refine ⟨?_, ?_, h.2.2⟩
  · refine h.1.mpr (Or.inr ⟨"c", List.mem_singleton.mpr rfl, ("t", flatTrack), ?_, by decide⟩)
    have hmt : oneTrackLauncher.mapTracks = [("t", flatTrack)] := rfl
    rw [hmt]
    exact List.mem_singleton.mpr rfl
  · exact h.2.1 "c" (List.mem_singleton.mpr rfl) "t" (by decide)
